import Mathlib

/-!
Shallow embedding of `src/electron/database/migrate.py` (class `SQLiteMigrator`).

The script applies versioned `.sql` migration files to a SQLite database,
tracks applied versions in a `migrations` ledger table, and offers JSON
export/import of all table contents.  The SQLite engine itself is external
to the repository; it is modelled here by a small concrete database state
(`DB`: an association list of named tables, each with columns, primary-key
columns, NOT NULL columns, and rows) together with an engine operation for
running a migration script body.  Script execution
(`Connection.executescript` followed by `commit`, with `rollback` on error)
is modelled as an all-or-nothing state transformer, per the storage-engine
contract assumed by the tool: a unit's statements run inside one transaction
whose effects become visible only at commit and are discarded by rollback.
-/

namespace Migrate

/-- Value stored in a table cell: SQLite NULL, TEXT or a number (loosely
typed row values, as produced by `sqlite3.Row` / consumed by `json`). -/
inductive Value
  | null
  | text (s : String)
  | num (n : Int)
deriving DecidableEq, Repr

/-- A row as the Python code sees it: an ordered mapping from column name to
value (`dict(row)` on export, a JSON object on import). -/
abbrev Row := List (String × Value)

/-- One table of the SQLite database: its column list (in `PRAGMA
table_info` order), primary-key columns, NOT NULL columns, and current
rows. -/
structure Table where
  cols : List String
  pk : List String
  notNull : List String
  rows : List Row
deriving DecidableEq, Repr

/-- The database: an association list from table name to table, in catalog
(`sqlite_master`) order. -/
structure DB where
  tables : List (String × Table)
deriving DecidableEq, Repr

/-- Catalog lookup of a table by name. -/
def DB.lookupTable (db : DB) (tname : String) : Option Table :=
  db.tables.lookup tname

/-- Replace the table stored under `tname` (used by insert/upsert; keys and
ordering of the catalog are unchanged). -/
def DB.update (db : DB) (tname : String) (tb : Table) : DB :=
  ⟨db.tables.map (fun p => if p.1 = tname then (p.1, tb) else p)⟩

/-- `get_applied_migrations` (migrate.py lines 87-94): `SELECT version FROM
migrations`, collecting the `version` column of every row; any
`sqlite3.OperationalError` (the `migrations` table, or its `version`
column, does not exist) yields the empty set. -/
def get_applied_migrations (db : DB) : List String :=
  match db.lookupTable "migrations" with
  | none => []
  | some t =>
    if "version" ∈ t.cols then
      t.rows.filterMap (fun r =>
        match r.lookup "version" with
        | some (Value.text s) => some s
        | _ => none)
    else []

/-- Version token of a migration filename (migrate.py line 60:
`migration_file.split('_')[0]`): the characters before the first `'_'`,
the whole name when no `'_'` occurs. -/
def fileVersion (s : String) : String :=
  String.mk (s.toList.takeWhile (fun c => c != '_'))

/-- Filter applied to the directory listing (migrate.py line 50:
`f.endswith('.sql')`). -/
def isSqlFile (s : String) : Bool :=
  (".sql".toList).isSuffixOf s.toList

/-- Lexicographic comparison of character lists by code point; this is how
Python's `sorted` compares the filename strings on line 50. -/
def charListLe : List Char → List Char → Bool
  | [], _ => true
  | _ :: _, [] => false
  | a :: as, b :: bs =>
    if a.toNat < b.toNat then true
    else if b.toNat < a.toNat then false
    else charListLe as bs

/-- String comparison used for sorting migration filenames ascending. -/
def strLe (a b : String) : Bool := charListLe a.toList b.toList

/-- Statement of a migration script body.  The model keeps the two shapes
the scripts need: creating a table (fails when the table already exists)
and a plain `INSERT` (fails when the table is missing, a named column is
unknown, a NOT NULL column is missing or null, or the new row collides with
an existing row on the primary key). -/
inductive Stmt
  | createTable (tname : String) (cols pk nn : List String)
  | insertRow (tname : String) (vals : Row)
deriving DecidableEq, Repr

/-- Whether two rows collide on the primary-key columns (no collision for a
table without a declared primary key). -/
def rowsConflict (pk : List String) (r1 r2 : Row) : Bool :=
  !pk.isEmpty && pk.all (fun c => r1.lookup c == r2.lookup c)

/-- NOT NULL check shared by INSERT and INSERT OR REPLACE: every NOT NULL
column must be present with a non-null value. -/
def notNullOk (nn : List String) (vals : Row) : Bool :=
  nn.all (fun c =>
    match vals.lookup c with
    | some v => v != Value.null
    | none => false)

/-- Engine semantics of one statement. -/
def applyStmt (db : DB) (s : Stmt) : Option DB :=
  match s with
  | .createTable tname cols pk nn =>
    match db.lookupTable tname with
    | some _ => none
    | none => some ⟨db.tables ++ [(tname, ⟨cols, pk, nn, []⟩)]⟩
  | .insertRow tname vals =>
    match db.lookupTable tname with
    | none => none
    | some t =>
      if vals.all (fun kv => kv.1 ∈ t.cols) then
        if notNullOk t.notNull vals then
          if t.rows.any (fun r => rowsConflict t.pk r vals) then none
          else some (db.update tname { t with rows := t.rows ++ [vals] })
        else none
      else none

/-- Engine semantics of `conn.executescript(migration_sql)` under the
storage-engine transaction contract: the statements run in order and the
whole script either produces the post-state or fails with no committed
effect. -/
def execScript (stmts : List Stmt) (db : DB) : Option DB :=
  stmts.foldlM applyStmt db

/-- One migration file: its filename and the parsed statements of its SQL
body. -/
structure MigrationFile where
  name : String
  script : List Stmt
deriving DecidableEq, Repr

/-- The engine step used by the runner for one migration unit: read the
file body and execute it as one script. -/
def execMigration (db : DB) (f : MigrationFile) : Option DB :=
  execScript f.script db

/-- Migrate.py line 50: `sorted([f for f in os.listdir(dir) if
f.endswith('.sql')])` — keep the `.sql` entries of the directory listing
and sort them ascending by filename. -/
def listUnits (dir : List MigrationFile) : List MigrationFile :=
  List.insertionSort (fun a b => strLe a.name b.name = true)
    (dir.filter (fun f => isSqlFile f.name))

/-- The per-file loop of `run_migrations` (migrate.py lines 59-82),
parametric in the engine `exec`: skip a file whose version token is in the
pre-computed applied set; otherwise run its script, committing on success,
and on failure roll back and return `False` without touching later files.
The returned list is the trace of filenames actually applied (the code's
"Applying migration" path). -/
def runLoop (exec : DB → MigrationFile → Option DB) (applied : List String) :
    List MigrationFile → DB → DB × Bool × List String
  | [], db => (db, true, [])
  | f :: rest, db =>
    if fileVersion f.name ∈ applied then
      runLoop exec applied rest db
    else
      match exec db f with
      | some db2 =>
        let r := runLoop exec applied rest db2
        (r.1, r.2.1, f.name :: r.2.2)
      | none => (db, false, [])

/-- `run_migrations` (migrate.py lines 45-85): list and sort the `.sql`
files; return `False` when none exist; otherwise read the applied set once
and run the loop.  The result is (database state, returned boolean, trace
of applied filenames). -/
def run_migrations (exec : DB → MigrationFile → Option DB)
    (dir : List MigrationFile) (db : DB) : DB × Bool × List String :=
  let files := listUnits dir
  if files.isEmpty then (db, false, [])
  else runLoop exec (get_applied_migrations db) files db

/-- Connection state for the import model: the durably committed database,
the database as seen inside the open transaction, and the
`PRAGMA foreign_keys` flag.  `commit` publishes `pending`; `rollback`
resets `pending` to `committed`. -/
structure Conn where
  committed : DB
  pending : DB
  fk : Bool
deriving DecidableEq, Repr

/-- Observable engine operations performed by `import_data`, in order:
the two `PRAGMA foreign_keys` toggles, each executed
`INSERT OR REPLACE INTO t (...) VALUES (...)`, and the final
`commit`/`rollback`. -/
inductive Ev
  | fkOff
  | fkOn
  | upsert (tname : String) (vals : Row)
  | commitEv
  | rollbackEv
deriving DecidableEq, Repr

/-- `PRAGMA table_info(t)` (migrate.py line 222): the column names of `t`,
and the empty list when no such table exists (the pragma returns zero rows
rather than failing). -/
def table_info (db : DB) (tname : String) : List String :=
  match db.lookupTable tname with
  | none => []
  | some t => t.cols

/-- Migrate.py line 228: `{k: v for k, v in row_data.items() if k in
columns}` — project a document row down to the keys that are current
columns of the table. -/
def filterRow (row : Row) (cols : List String) : Row :=
  row.filter (fun kv => kv.1 ∈ cols)

/-- Engine semantics of `INSERT OR REPLACE INTO tname (...) VALUES (...)`
(migrate.py line 235): delete the rows that collide with the new row on the
primary key, then insert it; fails on an unknown column or a violated NOT
NULL constraint, exactly the failures the row loop can hit. -/
def upsertRow (db : DB) (tname : String) (vals : Row) : Option DB :=
  match db.lookupTable tname with
  | none => none
  | some t =>
    if vals.all (fun kv => kv.1 ∈ t.cols) then
      if notNullOk t.notNull vals then
        some (db.update tname
          { t with rows := t.rows.filter (fun r => !rowsConflict t.pk r vals) ++ [vals] })
      else none
    else none

/-- The inner row loop of `import_data` (migrate.py lines 226-236): project
each document row to the table's columns, skip it when nothing remains,
otherwise perform the upsert.  Returns the database reached (or `none` at
the first failing write) together with the performed writes as events. -/
def importRows (tname : String) (cols : List String) :
    DB → List Row → Option DB × List Ev
  | db, [] => (some db, [])
  | db, r :: rs =>
    let fr := filterRow r cols
    if fr.isEmpty then importRows tname cols db rs
    else
      match upsertRow db tname fr with
      | some db2 =>
        let res := importRows tname cols db2 rs
        (res.1, Ev.upsert tname fr :: res.2)
      | none => (none, [])

/-- The outer table loop of `import_data` (migrate.py lines 217-236): for
each document key, skip it when it has no rows (`if not table_data:
continue`), otherwise read the current columns with `PRAGMA table_info` and
run the row loop; stop at the first failure. -/
def importTables : DB → List (String × List Row) → Option DB × List Ev
  | db, [] => (some db, [])
  | db, (tname, rows) :: rest =>
    if rows.isEmpty then importTables db rest
    else
      let res := importRows tname (table_info db tname) db rows
      match res.1 with
      | some db2 =>
        let res2 := importTables db2 rest
        (res2.1, res.2 ++ res2.2)
      | none => (none, res.2)

/-- `import_data` (migrate.py lines 208-248): `PRAGMA foreign_keys = OFF`,
the table loop, then `PRAGMA foreign_keys = ON` and a single `commit`,
returning `True`; on any exception, `rollback` and return `False` (the
foreign-key pragma is left off, since the except branch does not restore
it).  The event list records the engine operations in execution order. -/
def import_data (conn : Conn) (doc : List (String × List Row)) :
    Conn × Bool × List Ev :=
  let res := importTables conn.pending doc
  match res.1 with
  | some db2 =>
    (⟨db2, db2, true⟩, true, Ev.fkOff :: res.2 ++ [Ev.fkOn, Ev.commitEv])
  | none =>
    (⟨conn.committed, conn.committed, false⟩, false,
      Ev.fkOff :: res.2 ++ [Ev.rollbackEv])

/-- The export document built by `export_data` (migrate.py lines 182-196):
every catalog table mapped to its rows as column-keyed records, in catalog
order. -/
def buildExportDoc (db : DB) : List (String × List Row) :=
  db.tables.map (fun p => (p.1, p.2.rows))

/-- `export_data`'s serialization and write step (migrate.py lines
198-199): `with open(export_path, 'w') as f: json.dump(export_data, f,
...)`.  `open(path, 'w')` creates (or truncates) the output file before any
serialization happens, and `json.dump` streams encoded chunks to the file
handle as it serializes.  A serializer run is modelled by the chunks it
managed to encode and write, and whether it ran to completion (`true`) or
raised partway (`false`, the except branch: the function returns `None`).
The first component of the result is the file state at the export path
after the call (`some content`; the file always exists once opened), the
second is the success indicator (`return export_path` vs `return None`). -/
def export_data (db : DB)
    (ser : List (String × List Row) → List String × Bool) :
    Option String × Bool :=
  let res := ser (buildExportDoc db)
  (some (String.join res.1), res.2)

/-! ## Helper lemmas about the migration runner -/

theorem charListLe_total : ∀ as bs, charListLe as bs = true ∨ charListLe bs as = true := by
  intro as
  induction as with
  | nil => intro bs; left; rfl
  | cons a as ih =>
    intro bs
    cases bs with
    | nil => right; rfl
    | cons b bs =>
      simp only [charListLe]
      rcases Nat.lt_trichotomy a.toNat b.toNat with h | h | h
      · left; simp [h]
      · have h2 : ¬ a.toNat < b.toNat := by omega
        have h3 : ¬ b.toNat < a.toNat := by omega
        rcases ih bs with h4 | h4
        · left; simp [h2, h3, h4]
        · right; simp [h2, h3, h4]
      · right; simp [h]

theorem charListLe_trans :
    ∀ as bs cs, charListLe as bs = true → charListLe bs cs = true →
      charListLe as cs = true := by
  intro as
  induction as with
  | nil => intro bs cs _ _; rfl
  | cons a as ih =>
    intro bs cs h1 h2
    cases bs with
    | nil => simp [charListLe] at h1
    | cons b bs =>
      cases cs with
      | nil => simp [charListLe] at h2
      | cons c cs =>
        simp only [charListLe] at h1 h2 ⊢
        by_cases hab : a.toNat < b.toNat
        · by_cases hbc : b.toNat < c.toNat
          · have : a.toNat < c.toNat := by omega
            simp [this]
          · by_cases hcb : c.toNat < b.toNat
            · simp [hbc, hcb] at h2
            · have : a.toNat < c.toNat := by omega
              simp [this]
        · by_cases hba : b.toNat < a.toNat
          · simp [hab, hba] at h1
          · simp only [if_neg hab, if_neg hba] at h1
            by_cases hbc : b.toNat < c.toNat
            · have : a.toNat < c.toNat := by omega
              simp [this]
            · by_cases hcb : c.toNat < b.toNat
              · simp [hbc, hcb] at h2
              · simp only [if_neg hbc, if_neg hcb] at h2
                have hac : ¬ a.toNat < c.toNat := by omega
                have hca : ¬ c.toNat < a.toNat := by omega
                simp only [if_neg hac, if_neg hca]
                exact ih bs cs h1 h2

theorem listUnits_pairwise (dir : List MigrationFile) :
    List.Pairwise (fun a b : MigrationFile => strLe a.name b.name = true)
      (listUnits dir) := by
  haveI : IsTotal MigrationFile (fun a b => strLe a.name b.name = true) :=
    ⟨fun a b => charListLe_total _ _⟩
  haveI : IsTrans MigrationFile (fun a b => strLe a.name b.name = true) :=
    ⟨fun a b c h1 h2 => charListLe_trans _ _ _ h1 h2⟩
  exact List.sorted_insertionSort _ _

theorem runLoop_cons_mem (exec : DB → MigrationFile → Option DB)
    (applied : List String) (f : MigrationFile) (rest : List MigrationFile)
    (db : DB) (hv : fileVersion f.name ∈ applied) :
    runLoop exec applied (f :: rest) db = runLoop exec applied rest db := by
  simp [runLoop, hv]

theorem runLoop_cons_some (exec : DB → MigrationFile → Option DB)
    (applied : List String) (f : MigrationFile) (rest : List MigrationFile)
    (db db2 : DB) (hv : fileVersion f.name ∉ applied)
    (hx : exec db f = some db2) :
    runLoop exec applied (f :: rest) db =
      ((runLoop exec applied rest db2).1, (runLoop exec applied rest db2).2.1,
        f.name :: (runLoop exec applied rest db2).2.2) := by
  simp [runLoop, hv, hx]

theorem runLoop_cons_none (exec : DB → MigrationFile → Option DB)
    (applied : List String) (f : MigrationFile) (rest : List MigrationFile)
    (db : DB) (hv : fileVersion f.name ∉ applied)
    (hx : exec db f = none) :
    runLoop exec applied (f :: rest) db = (db, false, []) := by
  simp [runLoop, hv, hx]

theorem runLoop_ok_trace (exec : DB → MigrationFile → Option DB)
    (applied : List String) (files : List MigrationFile) :
    ∀ db, (runLoop exec applied files db).2.1 = true →
      (runLoop exec applied files db).2.2 =
        (files.filter (fun f => decide (fileVersion f.name ∉ applied))).map
          (fun f => f.name) := by
  induction files with
  | nil => intro db _; simp [runLoop]
  | cons f rest ih =>
    intro db h
    by_cases hv : fileVersion f.name ∈ applied
    · rw [runLoop_cons_mem exec applied f rest db hv] at h ⊢
      rw [ih db h]
      simp [List.filter_cons, hv]
    · cases hx : exec db f with
      | none =>
        rw [runLoop_cons_none exec applied f rest db hv hx] at h
        simp at h
      | some db2 =>
        rw [runLoop_cons_some exec applied f rest db db2 hv hx] at h ⊢
        simp only at h ⊢
        rw [ih db2 h]
        simp [List.filter_cons, hv]

theorem runLoop_skips_all (exec : DB → MigrationFile → Option DB)
    (applied : List String) (files : List MigrationFile) :
    ∀ db, (∀ f ∈ files, fileVersion f.name ∈ applied) →
      runLoop exec applied files db = (db, true, []) := by
  induction files with
  | nil => intro db _; rfl
  | cons f rest ih =>
    intro db h
    have hf : fileVersion f.name ∈ applied := h f (by simp)
    simp only [runLoop, if_pos hf]
    exact ih db (fun g hg => h g (by simp [hg]))

theorem runLoop_append (exec : DB → MigrationFile → Option DB)
    (applied : List String) (xs ys : List MigrationFile) :
    ∀ db, runLoop exec applied (xs ++ ys) db =
      (if (runLoop exec applied xs db).2.1 then
        ((runLoop exec applied ys (runLoop exec applied xs db).1).1,
          (runLoop exec applied ys (runLoop exec applied xs db).1).2.1,
          (runLoop exec applied xs db).2.2 ++
            (runLoop exec applied ys (runLoop exec applied xs db).1).2.2)
      else runLoop exec applied xs db) := by
  induction xs with
  | nil => intro db; simp [runLoop]
  | cons f xs ih =>
    intro db
    rw [List.cons_append]
    by_cases hv : fileVersion f.name ∈ applied
    · rw [runLoop_cons_mem exec applied f (xs ++ ys) db hv,
        runLoop_cons_mem exec applied f xs db hv]
      exact ih db
    · cases hx : exec db f with
      | none =>
        rw [runLoop_cons_none exec applied f (xs ++ ys) db hv hx,
          runLoop_cons_none exec applied f xs db hv hx]
        simp
      | some db2 =>
        rw [runLoop_cons_some exec applied f (xs ++ ys) db db2 hv hx,
          runLoop_cons_some exec applied f xs db db2 hv hx]
        rw [ih db2]
        by_cases hok : (runLoop exec applied xs db2).2.1 <;> simp [hok]

theorem run_fail_at (exec : DB → MigrationFile → Option DB)
    (dir : List MigrationFile) (db : DB) (pre post : List MigrationFile)
    (f : MigrationFile)
    (hu : listUnits dir = pre ++ f :: post)
    (hpre : (runLoop exec (get_applied_migrations db) pre db).2.1 = true)
    (hskip : fileVersion f.name ∉ get_applied_migrations db)
    (hfail : exec (runLoop exec (get_applied_migrations db) pre db).1 f = none) :
    run_migrations exec dir db =
      ((runLoop exec (get_applied_migrations db) pre db).1, false,
        (runLoop exec (get_applied_migrations db) pre db).2.2) := by
  have hne : (listUnits dir).isEmpty = false := by rw [hu]; simp
  simp only [run_migrations, hne, Bool.false_eq_true, if_false, hu]
  rw [runLoop_append exec (get_applied_migrations db) pre (f :: post) db]
  rw [hpre]
  simp only [if_true, runLoop, if_neg hskip, hfail]
  simp

/-! ## Migration runner claims -/

/-- C1: for every state of the migrations directory and of the ledger, a
run of `run_migrations` in which every executed unit succeeds applies
exactly those `.sql` units whose version token (the filename segment before
the first `'_'`) is absent from the pre-run ledger set, in ascending
lexical filename order; a ledgered unit is skipped regardless of which
other versions are or are not ledgered. -/
theorem run_migrations_applies_exactly_pending
    (exec : DB → MigrationFile → Option DB) (dir : List MigrationFile)
    (db : DB) (hok : (run_migrations exec dir db).2.1 = true) :
    (run_migrations exec dir db).2.2 =
      ((listUnits dir).filter
        (fun f => decide (fileVersion f.name ∉ get_applied_migrations db))).map
        (fun f => f.name)
    ∧ List.Pairwise (fun a b => strLe a b = true)
        (run_migrations exec dir db).2.2 := by
  by_cases hemp : (listUnits dir).isEmpty
  · exfalso
    simp [run_migrations, hemp] at hok
  · have hrm : run_migrations exec dir db
        = runLoop exec (get_applied_migrations db) (listUnits dir) db := by
      simp only [run_migrations, hemp, Bool.false_eq_true, if_false]
    rw [hrm] at hok ⊢
    have ht := runLoop_ok_trace exec (get_applied_migrations db)
      (listUnits dir) db hok
    refine ⟨ht, ?_⟩
    rw [ht]
    exact List.Pairwise.map _ (fun a b h => h)
      ((listUnits_pairwise dir).filter _)

def c1exec : DB → MigrationFile → Option DB := fun db _ => some db

def c1dir : List MigrationFile :=
  [⟨"010_c.sql", []⟩, ⟨"notes.txt", []⟩, ⟨"001_a.sql", []⟩, ⟨"002_b.sql", []⟩]

def c1db : DB :=
  ⟨[("migrations", ⟨["version", "name", "applied_at"], ["version"], [],
    [[("version", Value.text "002")]]⟩)]⟩

/-- Witness for C1: a directory listed out of order with a stray non-sql
file, against a ledger holding only version `002`; the run applies
`001_a.sql` and `010_c.sql` in ascending name order and skips
`002_b.sql`. -/
theorem run_migrations_applies_exactly_pending_witness :
    (run_migrations c1exec c1dir c1db).2.1 = true
    ∧ ((run_migrations c1exec c1dir c1db).2.2 =
        ((listUnits c1dir).filter
          (fun f => decide (fileVersion f.name ∉ get_applied_migrations c1db))).map
          (fun f => f.name)
      ∧ List.Pairwise (fun a b => strLe a b = true)
          (run_migrations c1exec c1dir c1db).2.2) :=
  ⟨by decide, run_migrations_applies_exactly_pending c1exec c1dir c1db (by decide)⟩

def c2file : MigrationFile :=
  ⟨"001_a.sql", [Stmt.insertRow "t" [("x", Value.num 1)]]⟩

def c2db : DB := ⟨[("t", ⟨["x"], [], [], []⟩)]⟩

/-- C2 counterexample: a migration script that does not record its own
version in the `migrations` ledger (the runner never writes the ledger
itself).  The first run applies `001_a.sql` and returns success, but the
second run finds the ledger still empty, re-applies the unit (trace is
nonempty rather than every unit being skipped) and changes the database
again. -/
theorem run_twice_changes_db :
    (run_migrations execMigration [c2file]
        (run_migrations execMigration [c2file] c2db).1).1
      ≠ (run_migrations execMigration [c2file] c2db).1
    ∧ (run_migrations execMigration [c2file]
        (run_migrations execMigration [c2file] c2db).1).2.2 ≠ [] := by
  decide

/-- C2 amended: if the first run succeeds and afterwards every discovered
unit's version is present in the ledger (the spec's ledger invariant, which
the migration scripts themselves are responsible for maintaining), then the
second run with the same directory skips every unit, performs no database
change, and returns success. -/
theorem run_migrations_idempotent_of_ledgered
    (exec : DB → MigrationFile → Option DB) (dir : List MigrationFile)
    (db : DB)
    (h1 : (run_migrations exec dir db).2.1 = true)
    (h2 : ∀ f ∈ listUnits dir,
      fileVersion f.name ∈ get_applied_migrations (run_migrations exec dir db).1) :
    run_migrations exec dir (run_migrations exec dir db).1 =
      ((run_migrations exec dir db).1, true, []) := by
  by_cases hemp : (listUnits dir).isEmpty
  · exfalso
    simp [run_migrations, hemp] at h1
  · have hrm : run_migrations exec dir db
        = runLoop exec (get_applied_migrations db) (listUnits dir) db := by
      simp only [run_migrations, hemp, Bool.false_eq_true, if_false]
    rw [hrm] at h2 ⊢
    simp only [run_migrations, hemp, Bool.false_eq_true, if_false]
    exact runLoop_skips_all exec _ (listUnits dir) _ h2

def c2goodFile : MigrationFile :=
  ⟨"001_a.sql",
    [Stmt.createTable "migrations" ["version", "name", "applied_at"] ["version"] [],
      Stmt.insertRow "migrations" [("version", Value.text "001")]]⟩

/-- Witness for the amended C2: a unit whose script creates the ledger and
records its own version; the second run skips it and changes nothing. -/
theorem run_migrations_idempotent_of_ledgered_witness :
    ((run_migrations execMigration [c2goodFile] ⟨[]⟩).2.1 = true
      ∧ ∀ f ∈ listUnits [c2goodFile],
          fileVersion f.name ∈
            get_applied_migrations (run_migrations execMigration [c2goodFile] ⟨[]⟩).1)
    ∧ run_migrations execMigration [c2goodFile]
        (run_migrations execMigration [c2goodFile] ⟨[]⟩).1 =
      ((run_migrations execMigration [c2goodFile] ⟨[]⟩).1, true, []) :=
  ⟨⟨by decide, by decide⟩,
    run_migrations_idempotent_of_ledgered execMigration [c2goodFile] ⟨[]⟩
      (by decide) (by decide)⟩

/-- C3: when the prefix `pre` of the sorted unit list has run successfully
and the next unledgered unit `f` fails, `run_migrations` returns the
failure signal `false` (caught, not raised), the database is exactly the
state the successful prefix committed, and the applied trace is exactly the
prefix's trace — neither `f` nor any unit of `post` is attempted. -/
theorem run_migrations_aborts_on_failure
    (exec : DB → MigrationFile → Option DB) (dir : List MigrationFile)
    (db : DB) (pre post : List MigrationFile) (f : MigrationFile)
    (hu : listUnits dir = pre ++ f :: post)
    (hpre : (runLoop exec (get_applied_migrations db) pre db).2.1 = true)
    (hskip : fileVersion f.name ∉ get_applied_migrations db)
    (hfail : exec (runLoop exec (get_applied_migrations db) pre db).1 f = none) :
    run_migrations exec dir db =
      ((runLoop exec (get_applied_migrations db) pre db).1, false,
        (runLoop exec (get_applied_migrations db) pre db).2.2) :=
  run_fail_at exec dir db pre post f hu hpre hskip hfail

def c3pre : MigrationFile := ⟨"001_a.sql", []⟩

def c3bad : MigrationFile := ⟨"002_b.sql", [Stmt.insertRow "nosuch" []]⟩

def c3post : MigrationFile := ⟨"003_c.sql", []⟩

/-- Witness for C3: of three units the middle one fails (insert into a
missing table); the run returns `false`, keeps the prefix's committed
state, and its trace holds only `001_a.sql`. -/
theorem run_migrations_aborts_on_failure_witness :
    (listUnits [c3post, c3bad, c3pre] = [c3pre] ++ c3bad :: [c3post]
      ∧ (runLoop execMigration (get_applied_migrations ⟨[]⟩) [c3pre] ⟨[]⟩).2.1 = true
      ∧ fileVersion c3bad.name ∉ get_applied_migrations (⟨[]⟩ : DB)
      ∧ execMigration (runLoop execMigration (get_applied_migrations ⟨[]⟩) [c3pre] ⟨[]⟩).1 c3bad
          = none)
    ∧ run_migrations execMigration [c3post, c3bad, c3pre] ⟨[]⟩ =
        ((runLoop execMigration (get_applied_migrations ⟨[]⟩) [c3pre] ⟨[]⟩).1, false,
          (runLoop execMigration (get_applied_migrations ⟨[]⟩) [c3pre] ⟨[]⟩).2.2) :=
  ⟨⟨by decide, by decide, by decide, by decide⟩,
    run_migrations_aborts_on_failure execMigration [c3post, c3bad, c3pre] ⟨[]⟩
      [c3pre] [c3post] c3bad (by decide) (by decide) (by decide) (by decide)⟩

theorem execScript_append_fail (good : List Stmt) (bad : Stmt)
    (rest : List Stmt) (db dbPart : DB)
    (hgood : execScript good db = some dbPart)
    (hbad : applyStmt dbPart bad = none) :
    execScript (good ++ bad :: rest) db = none := by
  unfold execScript at hgood ⊢
  rw [List.foldlM_append, hgood]
  simp [List.foldlM_cons, hbad]

/-- C4: when a unit's script fails partway — a prefix `good` of its
statements succeeds, producing the intermediate state `dbPart`, and the
next statement `bad` fails — the runner's rollback discards the
uncommitted partial state: the resulting database is exactly the committed
pre-unit state, the run reports failure, and the ledger holds no entry for
the unit's version. -/
theorem failed_script_leaves_no_partial_change
    (dir : List MigrationFile) (db dbPart : DB)
    (pre post : List MigrationFile) (f : MigrationFile)
    (good : List Stmt) (bad : Stmt) (rest : List Stmt)
    (hu : listUnits dir = pre ++ f :: post)
    (hpre : (runLoop execMigration (get_applied_migrations db) pre db).2.1 = true)
    (hskip : fileVersion f.name ∉ get_applied_migrations db)
    (hscript : f.script = good ++ bad :: rest)
    (hgood : execScript good
      (runLoop execMigration (get_applied_migrations db) pre db).1 = some dbPart)
    (hbad : applyStmt dbPart bad = none)
    (hnotmid : fileVersion f.name ∉
      get_applied_migrations
        (runLoop execMigration (get_applied_migrations db) pre db).1) :
    (run_migrations execMigration dir db).1 =
        (runLoop execMigration (get_applied_migrations db) pre db).1
    ∧ (run_migrations execMigration dir db).2.1 = false
    ∧ fileVersion f.name ∉
        get_applied_migrations (run_migrations execMigration dir db).1 := by
  have hfail : execMigration
      (runLoop execMigration (get_applied_migrations db) pre db).1 f = none := by
    show execScript f.script _ = none
    rw [hscript]
    exact execScript_append_fail good bad rest _ dbPart hgood hbad
  have h := run_fail_at execMigration dir db pre post f hu hpre hskip hfail
  rw [h]
  exact ⟨rfl, rfl, hnotmid⟩

def c4file : MigrationFile :=
  ⟨"001_a.sql",
    [Stmt.createTable "t" ["x"] [] [], Stmt.insertRow "missing" []]⟩

def c4part : DB := ⟨[("t", ⟨["x"], [], [], []⟩)]⟩

/-- Witness for C4: the unit's first statement creates a table (a partial
schema change, visible as `c4part` inside the transaction) and its second
statement fails; the run ends on the original empty database with no
ledger entry and reports failure. -/
theorem failed_script_leaves_no_partial_change_witness :
    (listUnits [c4file] = [] ++ c4file :: []
      ∧ (runLoop execMigration (get_applied_migrations ⟨[]⟩) [] ⟨[]⟩).2.1 = true
      ∧ execScript [Stmt.createTable "t" ["x"] [] []]
          (runLoop execMigration (get_applied_migrations ⟨[]⟩) [] ⟨[]⟩).1 = some c4part
      ∧ applyStmt c4part (Stmt.insertRow "missing" []) = none)
    ∧ ((run_migrations execMigration [c4file] ⟨[]⟩).1 =
          (runLoop execMigration (get_applied_migrations ⟨[]⟩) [] ⟨[]⟩).1
        ∧ (run_migrations execMigration [c4file] ⟨[]⟩).2.1 = false
        ∧ fileVersion c4file.name ∉
            get_applied_migrations (run_migrations execMigration [c4file] ⟨[]⟩).1) :=
  ⟨⟨by decide, by decide, by decide, by decide⟩,
    failed_script_leaves_no_partial_change [c4file] ⟨[]⟩ c4part [] [] c4file
      [Stmt.createTable "t" ["x"] [] []] (Stmt.insertRow "missing" []) []
      (by decide) (by decide) (by decide) (by decide) (by decide) (by decide)
      (by decide)⟩

/-- C5: when the `migrations` ledger table does not exist,
`get_applied_migrations` returns the empty set instead of failing, so no
discovered unit's version is ledgered and a fully successful run applies
every discovered unit. -/
theorem get_applied_empty_without_ledger
    (db : DB) (dir : List MigrationFile)
    (exec : DB → MigrationFile → Option DB)
    (h : db.lookupTable "migrations" = none) :
    get_applied_migrations db = []
    ∧ (∀ f ∈ listUnits dir, fileVersion f.name ∉ get_applied_migrations db)
    ∧ ((run_migrations exec dir db).2.1 = true →
        (run_migrations exec dir db).2.2 = (listUnits dir).map (fun f => f.name)) := by
  have h0 : get_applied_migrations db = [] := by
    simp [get_applied_migrations, h]
  refine ⟨h0, ?_, ?_⟩
  · intro f _
    rw [h0]
    simp
  · intro hok
    by_cases hemp : (listUnits dir).isEmpty
    · exfalso
      simp [run_migrations, hemp] at hok
    · have hrm : run_migrations exec dir db
          = runLoop exec (get_applied_migrations db) (listUnits dir) db := by
        simp only [run_migrations, hemp, Bool.false_eq_true, if_false]
      rw [hrm] at hok ⊢
      rw [runLoop_ok_trace exec _ _ db hok, h0]
      simp

/-- Witness for C5: a fresh empty database; both discovered units are
treated as unapplied and both get applied. -/
theorem get_applied_empty_without_ledger_witness :
    (DB.lookupTable ⟨[]⟩ "migrations" = none)
    ∧ (get_applied_migrations ⟨[]⟩ = []
      ∧ (∀ f ∈ listUnits [c3post, c3pre],
          fileVersion f.name ∉ get_applied_migrations (⟨[]⟩ : DB))
      ∧ ((run_migrations c1exec [c3post, c3pre] ⟨[]⟩).2.1 = true →
          (run_migrations c1exec [c3post, c3pre] ⟨[]⟩).2.2 =
            (listUnits [c3post, c3pre]).map (fun f => f.name))) :=
  ⟨by decide,
    get_applied_empty_without_ledger ⟨[]⟩ [c3post, c3pre] c1exec (by decide)⟩

/-- C8 counterexample: with no migration files, `run_migrations` returns
`False` — the same boolean failure indicator a failed migration produces —
so the outcome is not a success state (while indeed performing no database
change). -/
theorem no_migrations_returns_failure_flag :
    (run_migrations execMigration [] ⟨[]⟩).2.1 = false
    ∧ (run_migrations execMigration [] ⟨[]⟩).1 = ⟨[]⟩ := by
  decide

/-- C8 amended: when the directory holds no `.sql` unit, the apply
operation performs no database change, applies no unit, and returns the
boolean failure indicator `false` without raising — a reported no-op, but
signalled with the same `False` as an error outcome, not as a distinct
success state. -/
theorem run_migrations_noop_on_empty
    (exec : DB → MigrationFile → Option DB) (dir : List MigrationFile)
    (db : DB) (h : listUnits dir = []) :
    run_migrations exec dir db = (db, false, []) := by
  simp [run_migrations, h]

/-- Witness for the amended C8: a directory holding only a non-sql file. -/
theorem run_migrations_noop_on_empty_witness :
    (listUnits [⟨"readme.txt", []⟩] = [])
    ∧ run_migrations execMigration [⟨"readme.txt", []⟩] ⟨[]⟩ = (⟨[]⟩, false, []) :=
  ⟨by decide,
    run_migrations_noop_on_empty execMigration [⟨"readme.txt", []⟩] ⟨[]⟩ (by decide)⟩

/-! ## Helper lemmas about the import loop -/

/-- Column view of the catalog: the column list of each existing table,
`none` for a missing table.  Invariant under row writes. -/
def colsView (db : DB) (s : String) : Option (List String) :=
  (db.lookupTable s).map Table.cols

theorem lookup_map_update (tname : String) (tb : Table) (s : String) :
    ∀ l : List (String × Table),
      (l.map (fun p => if p.1 = tname then (p.1, tb) else p)).lookup s =
        (l.lookup s).map (fun old => if s = tname then tb else old) := by
  intro l
  induction l with
  | nil => rfl
  | cons p l ih =>
    obtain ⟨k, v⟩ := p
    simp only [List.map_cons]
    by_cases hk : k = tname
    · rw [if_pos hk]
      by_cases hs : s = k
      · have hb : (s == k) = true := beq_iff_eq.mpr hs
        have hstn : s = tname := hs.trans hk
        simp [List.lookup, hb, hstn, hk]
      · have hb : (s == k) = false := beq_eq_false_iff_ne.mpr hs
        simp [List.lookup, hb, ih]
    · rw [if_neg hk]
      by_cases hs : s = k
      · have hb : (s == k) = true := beq_iff_eq.mpr hs
        have hstn : ¬ s = tname := fun h => hk (hs.symm.trans h)
        simp [List.lookup, hb, hstn, hk]
      · have hb : (s == k) = false := beq_eq_false_iff_ne.mpr hs
        simp [List.lookup, hb, ih]

theorem lookupTable_update (db : DB) (tname : String) (tb : Table)
    (s : String) :
    (db.update tname tb).lookupTable s =
      (db.lookupTable s).map (fun old => if s = tname then tb else old) :=
  lookup_map_update tname tb s db.tables

theorem table_info_eq_colsView (db : DB) (s : String) :
    table_info db s = (colsView db s).getD [] := by
  unfold table_info colsView
  cases db.lookupTable s <;> simp

theorem upsertRow_colsView (db : DB) (tname : String) (vals : Row)
    (db2 : DB) (h : upsertRow db tname vals = some db2) :
    ∀ s, colsView db2 s = colsView db s := by
  intro s
  unfold upsertRow at h
  cases ht : db.lookupTable tname with
  | none => rw [ht] at h; simp at h
  | some t =>
    rw [ht] at h
    by_cases h1 : vals.all (fun kv => kv.1 ∈ t.cols)
    · by_cases h2 : notNullOk t.notNull vals
      · simp only [h1, h2, if_true, Option.some.injEq] at h
        subst h
        unfold colsView
        rw [lookupTable_update]
        cases hs : db.lookupTable s with
        | none => simp
        | some t2 =>
          by_cases he : s = tname
          · subst he
            rw [hs] at ht
            cases ht
            simp
          · simp [he]
      · simp [h1, h2] at h
    · simp [h1] at h

theorem importRows_cons_skip (tname : String) (cols : List String) (db : DB)
    (r : Row) (rs : List Row) (h : (filterRow r cols).isEmpty = true) :
    importRows tname cols db (r :: rs) = importRows tname cols db rs := by
  simp [importRows, h]

theorem importRows_cons_some (tname : String) (cols : List String)
    (db db2 : DB) (r : Row) (rs : List Row)
    (h1 : (filterRow r cols).isEmpty = false)
    (h2 : upsertRow db tname (filterRow r cols) = some db2) :
    importRows tname cols db (r :: rs) =
      ((importRows tname cols db2 rs).1,
        Ev.upsert tname (filterRow r cols) :: (importRows tname cols db2 rs).2) := by
  simp [importRows, h1, h2]

theorem importRows_cons_none (tname : String) (cols : List String) (db : DB)
    (r : Row) (rs : List Row)
    (h1 : (filterRow r cols).isEmpty = false)
    (h2 : upsertRow db tname (filterRow r cols) = none) :
    importRows tname cols db (r :: rs) = (none, []) := by
  simp [importRows, h1, h2]

theorem importRows_colsView (tname : String) (cols : List String) :
    ∀ (rows : List Row) (db db2 : DB),
      (importRows tname cols db rows).1 = some db2 →
      ∀ s, colsView db2 s = colsView db s := by
  intro rows
  induction rows with
  | nil =>
    intro db db2 h s
    simp only [importRows, Option.some.injEq] at h
    subst h
    rfl
  | cons r rs ih =>
    intro db db2 h s
    by_cases h1 : (filterRow r cols).isEmpty
    · rw [importRows_cons_skip tname cols db r rs h1] at h
      exact ih db db2 h s
    · rw [Bool.not_eq_true] at h1
      cases h2 : upsertRow db tname (filterRow r cols) with
      | none =>
        rw [importRows_cons_none tname cols db r rs h1 h2] at h
        simp at h
      | some dbU =>
        rw [importRows_cons_some tname cols db dbU r rs h1 h2] at h
        simp only at h
        rw [ih dbU db2 h s]
        exact upsertRow_colsView db tname (filterRow r cols) dbU h2 s

theorem importTables_cons_empty (db : DB) (tname : String) (rows : List Row)
    (rest : List (String × List Row)) (hr : rows.isEmpty = true) :
    importTables db ((tname, rows) :: rest) = importTables db rest := by
  simp [importTables, hr]

theorem importTables_cons_some (db db2 : DB) (tname : String)
    (rows : List Row) (rest : List (String × List Row))
    (hr : rows.isEmpty = false)
    (h : (importRows tname (table_info db tname) db rows).1 = some db2) :
    importTables db ((tname, rows) :: rest) =
      ((importTables db2 rest).1,
        (importRows tname (table_info db tname) db rows).2 ++
          (importTables db2 rest).2) := by
  simp [importTables, hr, h]

theorem importTables_cons_none (db : DB) (tname : String) (rows : List Row)
    (rest : List (String × List Row)) (hr : rows.isEmpty = false)
    (h : (importRows tname (table_info db tname) db rows).1 = none) :
    importTables db ((tname, rows) :: rest) =
      (none, (importRows tname (table_info db tname) db rows).2) := by
  simp [importTables, hr, h]

theorem importTables_colsView :
    ∀ (doc : List (String × List Row)) (db db2 : DB),
      (importTables db doc).1 = some db2 →
      ∀ s, colsView db2 s = colsView db s := by
  intro doc
  induction doc with
  | nil =>
    intro db db2 h s
    simp only [importTables, Option.some.injEq] at h
    subst h
    rfl
  | cons p rest ih =>
    intro db db2 h s
    obtain ⟨tname, rows⟩ := p
    by_cases hr : rows.isEmpty
    · rw [importTables_cons_empty db tname rows rest hr] at h
      exact ih db db2 h s
    · rw [Bool.not_eq_true] at hr
      cases h2 : (importRows tname (table_info db tname) db rows).1 with
      | none =>
        rw [importTables_cons_none db tname rows rest hr h2] at h
        simp at h
      | some dbT =>
        rw [importTables_cons_some db dbT tname rows rest hr h2] at h
        simp only at h
        rw [ih dbT db2 h s]
        exact importRows_colsView tname (table_info db tname) rows db dbT h2 s

theorem importRows_events_upsert (tname : String) (cols : List String) :
    ∀ (rows : List Row) (db : DB) (e : Ev),
      e ∈ (importRows tname cols db rows).2 → ∃ vals, e = Ev.upsert tname vals := by
  intro rows
  induction rows with
  | nil => intro db e he; simp [importRows] at he
  | cons r rs ih =>
    intro db e he
    by_cases h1 : (filterRow r cols).isEmpty
    · rw [importRows_cons_skip tname cols db r rs h1] at he
      exact ih db e he
    · rw [Bool.not_eq_true] at h1
      cases h2 : upsertRow db tname (filterRow r cols) with
      | none =>
        rw [importRows_cons_none tname cols db r rs h1 h2] at he
        simp at he
      | some dbU =>
        rw [importRows_cons_some tname cols db dbU r rs h1 h2] at he
        simp only [List.mem_cons] at he
        rcases he with he | he
        · exact ⟨filterRow r cols, he⟩
        · exact ih dbU e he

theorem importTables_events_upsert :
    ∀ (doc : List (String × List Row)) (db : DB) (e : Ev),
      e ∈ (importTables db doc).2 → ∃ tname vals, e = Ev.upsert tname vals := by
  intro doc
  induction doc with
  | nil => intro db e he; simp [importTables] at he
  | cons p rest ih =>
    intro db e he
    obtain ⟨tname, rows⟩ := p
    by_cases hr : rows.isEmpty
    · rw [importTables_cons_empty db tname rows rest hr] at he
      exact ih db e he
    · rw [Bool.not_eq_true] at hr
      cases h2 : (importRows tname (table_info db tname) db rows).1 with
      | none =>
        rw [importTables_cons_none db tname rows rest hr h2] at he
        simp only at he
        obtain ⟨vals, hv⟩ :=
          importRows_events_upsert tname (table_info db tname) rows db e he
        exact ⟨tname, vals, hv⟩
      | some dbT =>
        rw [importTables_cons_some db dbT tname rows rest hr h2] at he
        simp only [List.mem_append] at he
        rcases he with he | he
        · obtain ⟨vals, hv⟩ :=
            importRows_events_upsert tname (table_info db tname) rows db e he
          exact ⟨tname, vals, hv⟩
        · exact ih dbT e he

theorem importRows_ok_events (tname : String) (cols : List String) :
    ∀ (rows : List Row) (db : DB),
      (importRows tname cols db rows).1.isSome = true →
      (importRows tname cols db rows).2 =
        rows.filterMap (fun r =>
          if (filterRow r cols).isEmpty then none
          else some (Ev.upsert tname (filterRow r cols))) := by
  intro rows
  induction rows with
  | nil => intro db _; simp [importRows]
  | cons r rs ih =>
    intro db h
    by_cases h1 : (filterRow r cols).isEmpty
    · rw [importRows_cons_skip tname cols db r rs h1] at h ⊢
      rw [ih db h]
      have h1e : filterRow r cols = [] := List.isEmpty_iff.mp h1
      simp [List.filterMap_cons, h1e]
    · rw [Bool.not_eq_true] at h1
      have h1e : ¬ filterRow r cols = [] := by
        intro he
        simp [he] at h1
      cases h2 : upsertRow db tname (filterRow r cols) with
      | none =>
        rw [importRows_cons_none tname cols db r rs h1 h2] at h
        simp at h
      | some dbU =>
        rw [importRows_cons_some tname cols db dbU r rs h1 h2] at h ⊢
        simp only at h ⊢
        rw [ih dbU h]
        simp [List.filterMap_cons, h1e]

theorem importTables_ok_events :
    ∀ (doc : List (String × List Row)) (db : DB),
      (importTables db doc).1.isSome = true →
      (importTables db doc).2 =
        (doc.map (fun p => p.2.filterMap (fun r =>
          if (filterRow r (table_info db p.1)).isEmpty then none
          else some (Ev.upsert p.1 (filterRow r (table_info db p.1)))))).flatten := by
  intro doc
  induction doc with
  | nil => intro db _; simp [importTables]
  | cons p rest ih =>
    intro db h
    obtain ⟨tname, rows⟩ := p
    by_cases hr : rows.isEmpty
    · rw [importTables_cons_empty db tname rows rest hr] at h ⊢
      rw [ih db h]
      have hrows : rows = [] := List.isEmpty_iff.mp hr
      simp [hrows]
    · rw [Bool.not_eq_true] at hr
      cases h2 : (importRows tname (table_info db tname) db rows).1 with
      | none =>
        rw [importTables_cons_none db tname rows rest hr h2] at h
        simp at h
      | some dbT =>
        rw [importTables_cons_some db dbT tname rows rest hr h2] at h ⊢
        simp only at h ⊢
        rw [ih dbT h]
        rw [importRows_ok_events tname (table_info db tname) rows db (by rw [h2]; rfl)]
        have hmap : rest.map (fun p => p.2.filterMap (fun r =>
            if (filterRow r (table_info dbT p.1)).isEmpty then none
            else some (Ev.upsert p.1 (filterRow r (table_info dbT p.1)))))
          = rest.map (fun p => p.2.filterMap (fun r =>
            if (filterRow r (table_info db p.1)).isEmpty then none
            else some (Ev.upsert p.1 (filterRow r (table_info db p.1))))) := by
          apply List.map_congr_left
          intro q _
          have hti : table_info dbT q.1 = table_info db q.1 := by
            rw [table_info_eq_colsView, table_info_eq_colsView,
              importRows_colsView tname (table_info db tname) rows db dbT h2 q.1]
          rw [hti]
        rw [hmap]
        simp [List.flatten]

theorem importRows_nil_cols (tname : String) :
    ∀ (rows : List Row) (db : DB),
      importRows tname [] db rows = (some db, []) := by
  intro rows
  induction rows with
  | nil => intro db; rfl
  | cons r rs ih =>
    intro db
    have h1 : (filterRow r ([] : List String)).isEmpty = true := by
      simp [filterRow]
    rw [importRows_cons_skip tname [] db r rs h1]
    exact ih db

theorem importTables_skip_missing_head (tname : String) (rows : List Row)
    (rest : List (String × List Row)) (db : DB)
    (h : colsView db tname = none) :
    importTables db ((tname, rows) :: rest) = importTables db rest := by
  by_cases hr : rows.isEmpty
  · exact importTables_cons_empty db tname rows rest hr
  · rw [Bool.not_eq_true] at hr
    have hti : table_info db tname = [] := by
      rw [table_info_eq_colsView, h]
      rfl
    have h2 : (importRows tname (table_info db tname) db rows).1 = some db := by
      rw [hti, importRows_nil_cols]
    rw [importTables_cons_some db db tname rows rest hr h2]
    rw [hti, importRows_nil_cols]
    simp

theorem importTables_skip_missing (tname : String) (rows : List Row) :
    ∀ (pre : List (String × List Row)) (post : List (String × List Row))
      (db : DB), colsView db tname = none →
      importTables db (pre ++ (tname, rows) :: post) =
        importTables db (pre ++ post) := by
  intro pre
  induction pre with
  | nil =>
    intro post db h
    simp only [List.nil_append]
    exact importTables_skip_missing_head tname rows post db h
  | cons p pre ih =>
    intro post db h
    obtain ⟨s, rws⟩ := p
    simp only [List.cons_append]
    by_cases hr : rws.isEmpty
    · rw [importTables_cons_empty db s rws _ hr,
        importTables_cons_empty db s rws _ hr]
      exact ih post db h
    · rw [Bool.not_eq_true] at hr
      cases h2 : (importRows s (table_info db s) db rws).1 with
      | none =>
        rw [importTables_cons_none db s rws _ hr h2,
          importTables_cons_none db s rws _ hr h2]
      | some dbT =>
        rw [importTables_cons_some db dbT s rws _ hr h2,
          importTables_cons_some db dbT s rws _ hr h2]
        have h3 : colsView dbT tname = none := by
          rw [importRows_colsView s (table_info db s) rws db dbT h2 tname]
          exact h
        rw [ih post dbT h3]

theorem importTables_no_upsert_missing (tname : String) :
    ∀ (doc : List (String × List Row)) (db : DB),
      colsView db tname = none →
      ∀ vals, Ev.upsert tname vals ∉ (importTables db doc).2 := by
  intro doc
  induction doc with
  | nil => intro db _ vals hmem; simp [importTables] at hmem
  | cons p rest ih =>
    intro db h vals hmem
    obtain ⟨s, rws⟩ := p
    by_cases hst : s = tname
    · subst hst
      rw [importTables_skip_missing_head s rws rest db h] at hmem
      exact ih db h vals hmem
    · by_cases hr : rws.isEmpty
      · rw [importTables_cons_empty db s rws rest hr] at hmem
        exact ih db h vals hmem
      · rw [Bool.not_eq_true] at hr
        cases h2 : (importRows s (table_info db s) db rws).1 with
        | none =>
          rw [importTables_cons_none db s rws rest hr h2] at hmem
          simp only at hmem
          obtain ⟨v2, hv2⟩ := importRows_events_upsert s (table_info db s)
            rws db _ hmem
          exact hst (by injection hv2 with he _; exact he.symm)
        | some dbT =>
          rw [importTables_cons_some db dbT s rws rest hr h2] at hmem
          simp only [List.mem_append] at hmem
          rcases hmem with hmem | hmem
          · obtain ⟨v2, hv2⟩ := importRows_events_upsert s (table_info db s)
              rws db _ hmem
            exact hst (by injection hv2 with he _; exact he.symm)
          · have h3 : colsView dbT tname = none := by
              rw [importRows_colsView s (table_info db s) rws db dbT h2 tname]
              exact h
            exact ih dbT h3 vals hmem

theorem import_data_of_some (conn : Conn) (doc : List (String × List Row))
    (db2 : DB) (h : (importTables conn.pending doc).1 = some db2) :
    import_data conn doc =
      (⟨db2, db2, true⟩, true,
        Ev.fkOff :: (importTables conn.pending doc).2 ++ [Ev.fkOn, Ev.commitEv]) := by
  simp [import_data, h]

theorem import_data_of_none (conn : Conn) (doc : List (String × List Row))
    (h : (importTables conn.pending doc).1 = none) :
    import_data conn doc =
      (⟨conn.committed, conn.committed, false⟩, false,
        Ev.fkOff :: (importTables conn.pending doc).2 ++ [Ev.rollbackEv]) := by
  simp [import_data, h]

/-! ## Data porter claims -/

/-- C6: `import_data` disables foreign-key enforcement before touching any
table, and only a fully successful run re-enables it after all tables and
then commits exactly once; on any failure in the row loop the whole import
is rolled back (the committed database is unchanged and no commit is
issued), foreign keys are never re-enabled, and the failure is surfaced as
the returned `false`. -/
theorem import_data_fk_bracket (conn : Conn) (doc : List (String × List Row)) :
    ((import_data conn doc).2.2).head? = some Ev.fkOff
    ∧ ((import_data conn doc).2.1 = true →
        (∃ mid, (import_data conn doc).2.2 =
            Ev.fkOff :: mid ++ [Ev.fkOn, Ev.commitEv]
          ∧ ∀ e ∈ mid, ∃ tname vals, e = Ev.upsert tname vals)
        ∧ (import_data conn doc).1.committed = (import_data conn doc).1.pending)
    ∧ ((import_data conn doc).2.1 = false →
        (import_data conn doc).1.committed = conn.committed
        ∧ Ev.commitEv ∉ (import_data conn doc).2.2
        ∧ Ev.fkOn ∉ (import_data conn doc).2.2
        ∧ ((import_data conn doc).2.2).getLast? = some Ev.rollbackEv) := by
  cases h : (importTables conn.pending doc).1 with
  | some db2 =>
    rw [import_data_of_some conn doc db2 h]
    refine ⟨rfl, fun _ => ⟨⟨(importTables conn.pending doc).2, rfl, ?_⟩, rfl⟩,
      fun hf => by simp at hf⟩
    intro e he
    exact importTables_events_upsert doc conn.pending e he
  | none =>
    rw [import_data_of_none conn doc h]
    refine ⟨rfl, fun ht => by simp at ht, fun _ => ⟨rfl, ?_, ?_, ?_⟩⟩
    · intro hmem
      rcases List.mem_cons.mp hmem with he | he
      · simp at he
      · rcases List.mem_append.mp he with he | he
        · obtain ⟨tname, vals, hv⟩ :=
            importTables_events_upsert doc conn.pending _ he
          simp at hv
        · simp at he
    · intro hmem
      rcases List.mem_cons.mp hmem with he | he
      · simp at he
      · rcases List.mem_append.mp he with he | he
        · obtain ⟨tname, vals, hv⟩ :=
            importTables_events_upsert doc conn.pending _ he
          simp at hv
        · simp at he
    · show ((Ev.fkOff :: (importTables conn.pending doc).2) ++ [Ev.rollbackEv]).getLast?
          = some Ev.rollbackEv
      exact List.getLast?_concat _

def c6conn : Conn :=
  ⟨⟨[("t1", ⟨["x"], ["x"], [], []⟩)]⟩, ⟨[("t1", ⟨["x"], ["x"], [], []⟩)]⟩, true⟩

def c6doc : List (String × List Row) :=
  [("t1", [[("x", Value.num 1), ("old", Value.text "z")]])]

/-- Witness for C6 at a one-table import document. -/
theorem import_data_fk_bracket_witness :
    ((import_data c6conn c6doc).2.2).head? = some Ev.fkOff
    ∧ ((import_data c6conn c6doc).2.1 = true →
        (∃ mid, (import_data c6conn c6doc).2.2 =
            Ev.fkOff :: mid ++ [Ev.fkOn, Ev.commitEv]
          ∧ ∀ e ∈ mid, ∃ tname vals, e = Ev.upsert tname vals)
        ∧ (import_data c6conn c6doc).1.committed = (import_data c6conn c6doc).1.pending)
    ∧ ((import_data c6conn c6doc).2.1 = false →
        (import_data c6conn c6doc).1.committed = c6conn.committed
        ∧ Ev.commitEv ∉ (import_data c6conn c6doc).2.2
        ∧ Ev.fkOn ∉ (import_data c6conn c6doc).2.2
        ∧ ((import_data c6conn c6doc).2.2).getLast? = some Ev.rollbackEv) :=
  import_data_fk_bracket c6conn c6doc

/-- C7: in a successful import, the writes performed are exactly, in
document order: for every table key and every row of it, the projection of
the row to the table's current columns, upserted if and only if the
projection retains at least one column — extra keys are silently dropped
and fully-dropped rows are skipped without error. -/
theorem import_data_projects_and_upserts (conn : Conn)
    (doc : List (String × List Row))
    (hok : (import_data conn doc).2.1 = true) :
    (import_data conn doc).2.2 =
      Ev.fkOff :: ((doc.map (fun p => p.2.filterMap (fun r =>
          if (filterRow r (table_info conn.pending p.1)).isEmpty then none
          else some (Ev.upsert p.1 (filterRow r (table_info conn.pending p.1)))))).flatten
        ++ [Ev.fkOn, Ev.commitEv]) := by
  cases h : (importTables conn.pending doc).1 with
  | none =>
    rw [import_data_of_none conn doc h] at hok
    simp at hok
  | some db2 =>
    rw [import_data_of_some conn doc db2 h]
    rw [importTables_ok_events doc conn.pending (by rw [h]; rfl)]
    rfl

/-- Witness for C7: the single document row carries an extra key `old`
that is not a column of `t1`; the performed write is the projected row. -/
theorem import_data_projects_and_upserts_witness :
    (import_data c6conn c6doc).2.1 = true
    ∧ (import_data c6conn c6doc).2.2 =
        Ev.fkOff :: ((c6doc.map (fun p => p.2.filterMap (fun r =>
            if (filterRow r (table_info c6conn.pending p.1)).isEmpty then none
            else some (Ev.upsert p.1 (filterRow r (table_info c6conn.pending p.1)))))).flatten
          ++ [Ev.fkOn, Ev.commitEv]) :=
  ⟨by decide, import_data_projects_and_upserts c6conn c6doc (by decide)⟩

/-- The serializer model of a `json.dump` call that raises before writing
any chunk. -/
def serFail : List (String × List Row) → List String × Bool := fun _ => ([], false)

/-- C9 counterexample: when serialization itself fails, the export does
return the failure indicator, but a file does remain at the export path —
`open(path, 'w')` created (truncated) it before `json.dump` started, so
the claim that no partial export file is left on disk is false. -/
theorem export_failure_leaves_file :
    (export_data ⟨[]⟩ serFail).2 = false
    ∧ (export_data ⟨[]⟩ serFail).1 ≠ none := by
  decide

/-- C9 amended: if serialization of the export document fails, the export
returns a failure indicator; but since the output file is opened for
writing before serialization begins and `json.dump` streams chunks into
it, the file remains on disk holding exactly the chunks written before the
failure (possibly empty) — the no-partial-file guarantee does not hold for
serialization failures any more than for late I/O failures. -/
theorem export_data_failure_weak_guarantee (db : DB)
    (ser : List (String × List Row) → List String × Bool)
    (h : (ser (buildExportDoc db)).2 = false) :
    (export_data db ser).2 = false
    ∧ (export_data db ser).1 =
        some (String.join (ser (buildExportDoc db)).1) :=
  ⟨by simp [export_data, h], by simp [export_data]⟩

/-- Witness for the amended C9. -/
theorem export_data_failure_weak_guarantee_witness :
    (serFail (buildExportDoc ⟨[]⟩)).2 = false
    ∧ ((export_data ⟨[]⟩ serFail).2 = false
      ∧ (export_data ⟨[]⟩ serFail).1 =
          some (String.join (serFail (buildExportDoc ⟨[]⟩)).1)) :=
  ⟨by decide, export_data_failure_weak_guarantee ⟨[]⟩ serFail (by decide)⟩

/-- C10: a document key naming a table absent from the database does not
fail the import: its column lookup is empty, every one of its rows
projects to nothing and is skipped without any write, and the import
behaves exactly as if the entry were not present — same outcome, same
final state, and no upsert ever targets the missing table. -/
theorem import_data_ignores_missing_table (conn : Conn)
    (pre post : List (String × List Row)) (tname : String) (rows : List Row)
    (h : conn.pending.lookupTable tname = none) :
    import_data conn (pre ++ (tname, rows) :: post) =
        import_data conn (pre ++ post)
    ∧ ∀ vals, Ev.upsert tname vals ∉
        (import_data conn (pre ++ (tname, rows) :: post)).2.2 := by
  have hcv : colsView conn.pending tname = none := by
    unfold colsView
    rw [h]
    rfl
  have hskip := importTables_skip_missing tname rows pre post conn.pending hcv
  constructor
  · simp only [import_data]
    rw [hskip]
  · intro vals hmem
    cases hI : (importTables conn.pending (pre ++ (tname, rows) :: post)).1 with
    | some db2 =>
      rw [import_data_of_some conn _ db2 hI] at hmem
      rcases List.mem_cons.mp hmem with he | he
      · simp at he
      · rcases List.mem_append.mp he with he | he
        · exact importTables_no_upsert_missing tname _ conn.pending hcv vals he
        · simp at he
    | none =>
      rw [import_data_of_none conn _ hI] at hmem
      rcases List.mem_cons.mp hmem with he | he
      · simp at he
      · rcases List.mem_append.mp he with he | he
        · exact importTables_no_upsert_missing tname _ conn.pending hcv vals he
        · simp at he

def c10pre : List (String × List Row) := [("t1", [[("x", Value.num 1)]])]

/-- Witness for C10: importing a document that also names the nonexistent
table `ghost`. -/
theorem import_data_ignores_missing_table_witness :
    c6conn.pending.lookupTable "ghost" = none
    ∧ (import_data c6conn (c10pre ++ ("ghost", [[("x", Value.num 2)]]) :: []) =
          import_data c6conn (c10pre ++ [])
      ∧ ∀ vals, Ev.upsert "ghost" vals ∉
          (import_data c6conn (c10pre ++ ("ghost", [[("x", Value.num 2)]]) :: [])).2.2) :=
  ⟨by decide,
    import_data_ignores_missing_table c6conn c10pre [] "ghost"
      [[("x", Value.num 2)]] (by decide)⟩

end Migrate
